import Mathlib

/-!
Verification of the ArboPhyl pipeline core (ArboPhyl_src/ArboPhyl.py and
Arbophyl.py) against its natural-language specification.

The Python code is shallowly embedded as executable Lean definitions:

* file-system state is passed explicitly (a species-to-path-list association
  list stands for the dictionary returned by get_BUSCOs; a function from path
  to stored sequence stands for the fasta files on disk; a function from
  directory name to report lines stands for the model reports);
* Python float arithmetic on the small decimal quantities involved
  (percentages, scores, thresholds) is modelled by exact rational arithmetic;
  the built-in round(x, 1) becomes round-half-to-even at one decimal over the
  rationals;
* fallible Python code (IndexError, ValueError, unbound locals, sys.exit)
  returns Option or Except values.

String manipulation primitives from the source (split, endswith, replace,
upper) are re-implemented structurally over the character list of a string so
that every definition evaluates inside the kernel.
-/

deriving instance DecidableEq for Except

namespace ArboPhyl

/-- Characters-level splitter: pySplitChar c cs models the Python call
s.split(c) for a one-character separator, returning the (never empty) list
of separated chunks. -/
def pySplitChar (c : Char) : List Char → List (List Char)
  | [] => [[]]
  | d :: rest =>
    match pySplitChar c rest with
    | [] => [[]]
    | chunk :: chunks =>
      if d = c then [] :: chunk :: chunks else (d :: chunk) :: chunks

/-- Model of the idiom path.split("/")[-1] used throughout the source to
take the final path segment of a slash-separated path. -/
def basename (p : String) : String :=
  String.mk ((pySplitChar '/' p.data).getLastD [])

/-- Model of Python str.endswith as a suffix test on character lists. -/
def pyEndsWith (s suffixStr : String) : Bool :=
  suffixStr.data.isSuffixOf s.data

/-- Fuelled worker for pyReplace; the fuel bounds the number of scanning
steps so the recursion is structural and kernel-reducible. -/
def pyReplaceF (pat sub : List Char) : Nat → List Char → List Char
  | 0, l => l
  | _ + 1, [] => []
  | fuel + 1, d :: rest =>
    if pat ≠ [] ∧ pat.isPrefixOf (d :: rest) then
      sub ++ pyReplaceF pat sub fuel ((d :: rest).drop pat.length)
    else
      d :: pyReplaceF pat sub fuel rest

/-- Model of Python str.replace(pat, sub): replace every non-overlapping
occurrence of pat, scanning left to right. -/
def pyReplace (s pat sub : String) : String :=
  String.mk (pyReplaceF pat.data sub.data s.data.length s.data)

/-- Model of Python str.upper restricted to the ASCII sequence data the
pipeline manipulates. -/
def pyUpper (s : String) : String :=
  String.mk (s.data.map Char.toUpper)

/-- Fuelled worker for auto_linebreak: append a newline after every complete
block of 60 characters, leaving a trailing shorter block untouched. -/
def chunk60 : Nat → List Char → List Char
  | 0, l => l
  | fuel + 1, l =>
    if 60 ≤ l.length then l.take 60 ++ '\n' :: chunk60 fuel (l.drop 60)
    else l

/-- Embedding of auto_linebreak (ArboPhyl.py:58-67): re.sub("(.{60})",
"\\1\n", string, 0, re.DOTALL) inserts a newline after each complete
60-character block. -/
def auto_linebreak (s : String) : String :=
  String.mk (chunk60 s.data.length s.data)

/-- Embedding of read_fasta (ArboPhyl.py:43-55). The file is modelled by its
parsed record sequences, in file order. The Python loop rebinds seq at every
record and returns the last binding; with no records the local variable is
never bound and the return raises UnboundLocalError, modelled by none. -/
def read_fasta (records : List String) : Option String :=
  records.foldl (fun _ record => some (pyUpper record)) none

/-- Dictionary-update step inside get_Overlap: overlap[gene] += 1 when the
key is present, otherwise insert it with count 1 (Python dictionaries keep
insertion order, so a fresh key goes to the end). -/
def bump : List (String × Nat) → String → List (String × Nat)
  | [], g => [(g, 1)]
  | (k, v) :: rest, g =>
    if k = g then (k, v + 1) :: rest else (k, v) :: bump rest g

/-- Counting loop of get_Overlap (ArboPhyl.py:148-154): tally the occurrences
of every gene basename over all species' path lists. -/
def tally (buscos : List (String × List String)) : List (String × Nat) :=
  buscos.foldl (fun acc sp => sp.2.foldl (fun a gene => bump a (basename gene)) acc) []

/-- Round-half-to-even of a rational to an integer, the rounding mode of
Python round on the exactly representable values occurring here. -/
def rhe (q : ℚ) : ℤ :=
  if q - ⌊q⌋ < 1 / 2 then ⌊q⌋
  else if 1 / 2 < q - ⌊q⌋ then ⌊q⌋ + 1
  else if 2 ∣ ⌊q⌋ then ⌊q⌋ else ⌊q⌋ + 1

/-- Model of Python round(x, 1): round half to even at one decimal place. -/
def pyRound1 (x : ℚ) : ℚ :=
  (rhe (x * 10) : ℚ) / 10

/-- Embedding of the static method get_Overlap (ArboPhyl.py:134-158): tally
each basename and map count v to round(v / len(busco_dict) * 100, 1). -/
def get_Overlap (busco_dict : List (String × List String)) : List (String × ℚ) :=
  (tally busco_dict).map (fun kv => (kv.1, pyRound1 ((kv.2 : ℚ) / (busco_dict.length : ℚ) * 100)))

/-- Number of species whose path list contains a path with basename g; this
is the count-of-species-possessing-the-ortholog of the specification. -/
def speciesCount (g : String) (buscos : List (String × List String)) : Nat :=
  (buscos.filter (fun sp => sp.2.any (fun p => basename p = g))).length

/-- Total number of path occurrences with basename g over all species, which
is the quantity the counting loop of get_Overlap actually accumulates. -/
def totalOcc (g : String) (buscos : List (String × List String)) : Nat :=
  (buscos.map (fun sp => (sp.2.filter (fun p => basename p = g)).length)).sum

/-- Analysis mode of the pipeline; the command-line layer restricts the
choices to genome and proteins (cli.py, choices=["genome", "proteins"]). -/
inductive Mode where
  | genome : Mode
  | proteins : Mode
deriving DecidableEq

/-- Output file name for one qualifying gene (ArboPhyl.py:190-193):
replace the mode extension by the _MS-suffixed one. -/
def MS_name (mode : Mode) (gene : String) : String :=
  match mode with
  | Mode.genome => pyReplace (basename gene) ".fna" "_MS.fna"
  | Mode.proteins => pyReplace (basename gene) ".faa" "_MS.faa"

/-- Failure modes of filter_BUSCOs. noShared carries the maximum occupancy
named in the sys.exit message of ArboPhyl.py:173-176; emptyMax is the
ValueError of max() on an empty occupancy table; noPresent is the ValueError
of list.index(True) when a gene qualifies but no species possesses it. -/
inductive FilterError where
  | noShared : ℚ → FilterError
  | emptyMax : FilterError
  | noPresent : String → FilterError
deriving DecidableEq

/-- Maximum of the occupancy values, as Python max(overlap.values()). -/
def maxOccup (v : ℚ) (vs : List ℚ) : ℚ :=
  vs.foldl max v

/-- Presence test of ArboPhyl.py:196-201: a species possesses the gene when
any of its stored paths ends with the gene string (suffix match). -/
def presentIn (gene : String) (busco_list : List String) : Bool :=
  busco_list.any (fun p => pyEndsWith p gene)

/-- Records a present species contributes to a gene's filtered file
(ArboPhyl.py:207-215): one header/sequence pair per stored path whose
basename equals the gene, the sequence being the stored fasta content. -/
def realRecords (gene : String) (fs : String → String) (sp : String × List String) :
    List (String × String) :=
  (sp.2.filter (fun p => basename p = gene)).map (fun p => (sp.1, fs p))

/-- Records an absent species contributes (ArboPhyl.py:217-226): one gap run
of dashes per basename-matching path of the first present species fp, the
dash count being the length of that stored sequence. -/
def gapRecords (gene : String) (fs : String → String) (fp : String × List String)
    (species : String) : List (String × String) :=
  (fp.2.filter (fun p => basename p = gene)).map
    (fun p => (species, String.mk (List.replicate (fs p).length '-')))

/-- Worker walking the species dictionary in order; fp? is the first present
species (Python list(present_dict.keys())[...index(True)]), and none there
with an absent species at hand is the ValueError of index(True). -/
def geneRecordsGo (gene : String) (fs : String → String)
    (fp? : Option (String × List String)) :
    List (String × List String) → Option (List (String × String))
  | [] => some []
  | sp :: rest =>
    match geneRecordsGo gene fs fp? rest with
    | none => none
    | some tail =>
      if presentIn gene sp.2 then some (realRecords gene fs sp ++ tail)
      else
        match fp? with
        | none => none
        | some fp => some (gapRecords gene fs fp sp.1 ++ tail)

/-- Content of the filtered-alignment file filter_BUSCOs writes for one
qualifying gene (ArboPhyl.py:203-226), as the ordered list of
header/sequence records; none models the ValueError when no species at all
is present. -/
def geneRecords (gene : String) (buscos : List (String × List String))
    (fs : String → String) : Option (List (String × String)) :=
  geneRecordsGo gene fs (buscos.find? (fun sp => presentIn gene sp.2)) buscos

/-- Per-gene loop of filter_BUSCOs (ArboPhyl.py:186-227): for each table
entry in order, when the occupancy reaches the shared threshold and the
species dictionary is not empty, emit the filtered file; a records-level
ValueError aborts the whole stage. -/
def filterFiles (shared : ℚ) (buscos : List (String × List String))
    (fs : String → String) (mode : Mode) :
    List (String × ℚ) → Except FilterError (List (String × List (String × String)))
  | [] => Except.ok []
  | (gene, value) :: rest =>
    if shared ≤ value ∧ buscos ≠ [] then
      match geneRecords gene buscos fs with
      | none => Except.error (FilterError.noPresent gene)
      | some rs =>
        match filterFiles shared buscos fs mode rest with
        | Except.error e => Except.error e
        | Except.ok files => Except.ok ((MS_name mode gene, rs) :: files)
    else filterFiles shared buscos fs mode rest

/-- Embedding of filter_BUSCOs (ArboPhyl.py:160-228). If no occupancy value
reaches the shared threshold the stage exits fatally, naming the maximum
occupancy observed (ArboPhyl.py:171-176), before any file is written;
otherwise it returns the filtered-alignment files in table order. -/
def filter_BUSCOs (shared : ℚ) (overlap : List (String × ℚ))
    (buscos : List (String × List String)) (fs : String → String) (mode : Mode) :
    Except FilterError (List (String × List (String × String))) :=
  if overlap.all (fun gv => decide (gv.2 < shared)) then
    match overlap.map Prod.snd with
    | [] => Except.error FilterError.emptyMax
    | v :: vs => Except.error (FilterError.noShared (maxOccup v vs))
  else filterFiles shared buscos fs mode overlap

/-- Inner pair loop of sum_of_pairs (Arbophyl.py:173-176): the number of
index pairs x < y whose residues in the column are equal, accumulated by
comparing each residue with all later ones. -/
def pairMatches : List Char → Nat
  | [] => 0
  | c :: rest => (rest.filter (fun d => d = c)).length + pairMatches rest

/-- Column i of the alignment, reading one residue from every sequence
(Arbophyl.py:170-171). AlignIO.read guarantees a rectangular alignment, so
the default residue of getD is never consulted on its domain. -/
def column (aln : List (List Char)) (i : Nat) : List Char :=
  aln.map (fun s => s.getD i ' ')

/-- Embedding of the scoring part of sum_of_pairs (Arbophyl.py:162-179): per
column, matching pairs divided by n(n-1)/2, summed, then divided by the
column count; none models the ZeroDivisionError raised when the alignment
has fewer than two sequences or zero columns. -/
def sum_of_pairs_score (aln : List (List Char)) : Option ℚ :=
  match aln with
  | [] => none
  | s0 :: _ =>
    if aln.length ≤ 1 ∨ s0.length = 0 then none
    else
      some ((((List.range s0.length).map
        (fun i => (pairMatches (column aln i) : ℚ) /
          ((aln.length : ℚ) * ((aln.length : ℚ) - 1) / 2))).sum) / (s0.length : ℚ))

/-- Routing decision of sum_of_pairs (Arbophyl.py:179-182): the file is
moved into Passed_MSA when the score reaches 0.45, else into Failed_MSA. -/
def sum_of_pairs_dest (aln : List (List Char)) : Option String :=
  match sum_of_pairs_score aln with
  | none => none
  | some q => some (if 45 / 100 ≤ q then "Passed_MSA" else "Failed_MSA")

/-- Specification-side column score, written from the spec's words: the
number of unordered sequence pairs whose residues at the column are
identical, as the cardinality of the set of index pairs x < y that agree. -/
def specColMatches (aln : List (List Char)) (i : Nat) : Nat :=
  ((Finset.range aln.length ×ˢ Finset.range aln.length).filter
    (fun xy => xy.1 < xy.2 ∧ (column aln i).getD xy.1 ' ' = (column aln i).getD xy.2 ' ')).card

/-- Specification-side score: mean over alignment columns of matching pairs
over total unordered pairs (n choose 2). -/
def specScore (aln : List (List Char)) (len : Nat) : ℚ :=
  ((Finset.range len).sum
    (fun i => (specColMatches aln i : ℚ) / (aln.length.choose 2 : ℚ))) / (len : ℚ)

/-- Contiguous-subsequence test on character lists, the meaning of the
Python substring membership operator. -/
def containsSeq (pat : List Char) : List Char → Bool
  | [] => pat.isEmpty
  | c :: rest => pat.isPrefixOf (c :: rest) || containsSeq pat rest

/-- Marker test of create_partition (ArboPhyl.py:262): Python "BIC:" in
line, modelled as a contiguous-subsequence test on the characters. -/
def hasBIC (line : String) : Bool :=
  containsSeq "BIC:".data line.data

/-- Characters before the next occurrence of the two-character separator
": ", for the second chunk of the Python split. -/
def upToColonSpace : List Char → List Char
  | [] => []
  | ':' :: ' ' :: _ => []
  | c :: rest => c :: upToColonSpace rest

/-- Second chunk of the ": " split of a line, none when the separator does
not occur: the [1] indexing of the Python split. -/
def splitColonSpace : List Char → Option (List Char)
  | [] => none
  | ':' :: ' ' :: rest => some (upToColonSpace rest)
  | _ :: rest => splitColonSpace rest

/-- Model-string extraction (ArboPhyl.py:263-264): line.split(": ")[1] with
the newline already absent from the modelled lines; none is the IndexError
when the line has no ": " separator. -/
def bicModel (line : String) : Option String :=
  (splitColonSpace line.data).map (fun cs => String.mk cs)

/-- Report scan of create_partition (ArboPhyl.py:261-264): every line
containing the marker overwrites the model entry, so the last marker line
wins; the error carries the first malformed marker line. -/
def scanModel (lines : List String) : Except String (Option String) :=
  lines.foldl
    (fun acc line =>
      match acc with
      | Except.error e => Except.error e
      | Except.ok m =>
        if hasBIC line then
          match bicModel line with
          | none => Except.error line
          | some v => Except.ok (some v)
        else Except.ok m)
    (Except.ok none)

/-- Charpartition assembly of create_partition (ArboPhyl.py:258-273): walk
the model directories in listing order, recording one model:orthologID pair
per directory whose report contains the marker; directories without the
marker are passed over without any entry. -/
def partitionModels (reports : String → List String) :
    List String → Except String (List (String × String))
  | [] => Except.ok []
  | d :: rest =>
    match scanModel (reports d) with
    | Except.error e => Except.error e
    | Except.ok m? =>
      match partitionModels reports rest with
      | Except.error e => Except.error e
      | Except.ok tail =>
        match m? with
        | none => Except.ok tail
        | some m => Except.ok ((m, d) :: tail)

/-- Embedding of create_partition (ArboPhyl.py:230-276): the ordered
ortholog identifiers of the charset block (one per directory, in listing
order) together with the model:orthologID pairs of the charpartition
clause. -/
def create_partition (dirs : List String) (reports : String → List String) :
    Except String (List String × List (String × String)) :=
  match partitionModels reports dirs with
  | Except.error e => Except.error e
  | Except.ok ps => Except.ok (dirs, ps)

/-- Fold helper giving the numeric value of a digit string read left to
right, none when a non-digit occurs. -/
def digitsValGo (acc : Nat) : List Char → Option Nat
  | [] => some acc
  | c :: rest =>
    if c.isDigit then digitsValGo (acc * 10 + (c.toNat - '0'.toNat)) rest
    else none

/-- Model of Python float() on the plain decimal completeness strings the
summary reports carry (digits with an optional single dot); none models the
ValueError on anything else. -/
def parseFloat (s : String) : Option ℚ :=
  match pySplitChar '.' s.data with
  | [ip] =>
    (digitsValGo 0 ip).map (fun v => (v : ℚ))
  | [ip, fp] =>
    if ip = [] ∧ fp = [] then none
    else
      match digitsValGo 0 ip, digitsValGo 0 fp with
      | some iv, some fv => some (mkRat (iv * 10 ^ fp.length + fv) (10 ^ fp.length))
      | _, _ => none
  | _ => none

/-- Completeness extraction of BUSCO_qc (ArboPhyl.py:293-295): take the 9th
line of the summary, the chunk between the first colon and the following
percent sign, and parse it as a float; none models the IndexError or
ValueError on malformed reports. -/
def parseComp (lines : List String) : Option ℚ :=
  match lines.get? 8 with
  | none => none
  | some line =>
    match (pySplitChar ':' line.data).get? 1 with
    | none => none
    | some chunk => parseFloat (String.mk ((pySplitChar '%' chunk).getD 0 []))

/-- Embedding of BUSCO_qc (ArboPhyl.py:278-297): parse every species'
summary report into its completeness percentage; a single parse failure
aborts the scan, as the Python exception would. -/
def BUSCO_qc (reports : List (String × List String)) : Option (List (String × ℚ)) :=
  match reports with
  | [] => some []
  | r :: rest =>
    match parseComp r.2, BUSCO_qc rest with
    | some v, some tail => some ((r.1, v) :: tail)
    | _, _ => none

/-- Removal loop at the end of get_BUSCOs (ArboPhyl.py:127-130): delete
every species whose completeness is strictly below the complete threshold.
Species without a completeness entry are left in place. -/
def removeLow (buscos : List (String × List String)) (qc : List (String × ℚ))
    (complete : ℚ) : List (String × List String) :=
  buscos.filter
    (fun sp =>
      match qc.lookup sp.1 with
      | some v => decide (¬ v < complete)
      | none => true)

/-- Completeness gate of get_BUSCOs: parse the summaries, then drop the
low-completeness species; none models the parse exception. -/
def get_BUSCOs_gate (buscos : List (String × List String))
    (reports : List (String × List String)) (complete : ℚ) :
    Option (List (String × List String)) :=
  (BUSCO_qc reports).map (fun qc => removeLow buscos qc complete)

/-- Count held by the tally for a key, zero when the key is absent; a
verification helper for reasoning about the counting loop. -/
def lookupCount (l : List (String × Nat)) (k : String) : Nat :=
  (l.lookup k).getD 0

/-- Species dictionary with 2001 species, of which 2000 possess ortholog g
and a single one possesses ortholog h; the occupancy of h is 100/2001 of a
percent, which rounds to 0.0 at one decimal. -/
def manySpecies : List (String × List String) :=
  (List.range 2001).map (fun i => (toString i, [if i = 2000 then "h" else "g"]))

/-! Generic association-list lemmas used by several claims. -/

theorem lookup_mem {α : Type} [DecidableEq String] (l : List (String × α)) (k : String)
    (v : α) (h : l.lookup k = some v) : (k, v) ∈ l := by
  induction l with
  | nil => simp [List.lookup] at h
  | cons a t ih =>
    rw [List.lookup] at h
    cases hk : (k == a.1) with
    | true =>
      rw [hk] at h
      simp only [Option.some.injEq] at h
      have hk2 : k = a.1 := by simpa using hk
      have : (k, v) = a := by
        rw [hk2, ← h]
      rw [this]
      exact List.mem_cons_self a t
    | false =>
      rw [hk] at h
      right
      exact ih h

theorem lookup_map_value {α β : Type} (l : List (String × α)) (f : String → α → β)
    (k : String) :
    (l.map (fun kv => (kv.1, f kv.1 kv.2))).lookup k = (l.lookup k).map (f k) := by
  induction l with
  | nil => simp
  | cons a t ih =>
    simp only [List.map_cons, List.lookup]
    cases hk : (k == a.1) with
    | true =>
      have hk2 : k = a.1 := by simpa using hk
      simp [hk2]
    | false => simpa using ih

/-! Lemmas about the fasta reader, settling claim C10. -/

theorem read_fasta_foldl (l : List String) (acc : Option String) (h : l ≠ []) :
    l.foldl (fun _ r => some (pyUpper r)) acc = (l.getLast?).map pyUpper := by
  induction l generalizing acc with
  | nil => exact absurd rfl h
  | cons a t ih =>
    cases t with
    | nil => simp
    | cons b t2 =>
      rw [List.foldl_cons, List.getLast?_cons_cons]
      exact ih (some (pyUpper a)) (by simp)

/-- Claim C10: read_fasta returns the uppercased sequence of the last record
of the file, silently discarding earlier records; on a file with zero
records the sequence variable is never bound and the function errors out
(modelled by none) instead of returning a string. -/
theorem read_fasta_last_record (records : List String) :
    read_fasta records = (records.getLast?).map pyUpper := by
  cases records with
  | nil => rfl
  | cons a t => exact read_fasta_foldl (a :: t) none (by simp)

/-! Lemmas about the counting loop of get_Overlap. -/

theorem bump_lookup_self (l : List (String × Nat)) (g : String) :
    (bump l g).lookup g = some (lookupCount l g + 1) := by
  induction l with
  | nil => simp [bump, List.lookup, lookupCount]
  | cons a t ih =>
    by_cases hk : a.1 = g
    · simp [bump, hk, List.lookup, lookupCount]
    · have hk2 : (g == a.1) = false := by
        simp [Ne.symm hk]
      cases a with
      | mk k v =>
        simp only at hk hk2
        simp [bump, hk, List.lookup, hk2, lookupCount, ih]

theorem bump_lookup_ne (l : List (String × Nat)) (g k2 : String) (h : k2 ≠ g) :
    (bump l g).lookup k2 = l.lookup k2 := by
  have hb : (k2 == g) = false := beq_eq_false_iff_ne.mpr h
  induction l with
  | nil => simp [bump, List.lookup, hb]
  | cons a t ih =>
    by_cases hk : a.1 = g
    · cases a with
      | mk k v =>
        simp only at hk
        simp [bump, hk, List.lookup, hb]
    · cases a with
      | mk k v =>
        simp only at hk
        simp only [bump, if_neg hk, List.lookup]
        cases hkk : (k2 == k) with
        | true => rfl
        | false => exact ih

theorem genes_foldl_count (genes : List String) (acc : List (String × Nat)) (k : String) :
    lookupCount (genes.foldl (fun a gene => bump a (basename gene)) acc) k =
      lookupCount acc k + genes.countP (fun p => basename p = k) := by
  induction genes generalizing acc with
  | nil => simp
  | cons x gs ih =>
    rw [List.foldl_cons, ih, List.countP_cons]
    by_cases hx : basename x = k
    · rw [hx]
      have : lookupCount (bump acc k) k = lookupCount acc k + 1 := by
        simp [lookupCount, bump_lookup_self]
      rw [this]
      simp
      ring
    · have : lookupCount (bump acc (basename x)) k = lookupCount acc k := by
        simp [lookupCount, bump_lookup_ne acc (basename x) k (Ne.symm hx)]
      rw [this]
      simp [hx]

theorem genes_foldl_none (genes : List String) (acc : List (String × Nat)) (k : String) :
    (genes.foldl (fun a gene => bump a (basename gene)) acc).lookup k = none ↔
      acc.lookup k = none ∧ genes.countP (fun p => basename p = k) = 0 := by
  induction genes generalizing acc with
  | nil => simp
  | cons x gs ih =>
    rw [List.foldl_cons, ih, List.countP_cons]
    by_cases hx : basename x = k
    · rw [hx]
      simp [bump_lookup_self, hx]
    · rw [bump_lookup_ne acc (basename x) k (Ne.symm hx)]
      simp [hx]

theorem totalOcc_cons (k : String) (sp : String × List String)
    (bs : List (String × List String)) :
    totalOcc k (sp :: bs) =
      (sp.2.filter (fun p => basename p = k)).length + totalOcc k bs := by
  simp [totalOcc]

theorem tally_foldl_count (bs : List (String × List String))
    (acc : List (String × Nat)) (k : String) :
    lookupCount
      (bs.foldl (fun a sp => sp.2.foldl (fun a2 gene => bump a2 (basename gene)) a) acc) k =
      lookupCount acc k + totalOcc k bs := by
  induction bs generalizing acc with
  | nil => simp [totalOcc]
  | cons sp t ih =>
    rw [List.foldl_cons, ih, genes_foldl_count, totalOcc_cons,
      List.countP_eq_length_filter]
    ring

theorem tally_foldl_none (bs : List (String × List String))
    (acc : List (String × Nat)) (k : String) :
    (bs.foldl (fun a sp => sp.2.foldl (fun a2 gene => bump a2 (basename gene)) a) acc).lookup k
      = none ↔ acc.lookup k = none ∧ totalOcc k bs = 0 := by
  induction bs generalizing acc with
  | nil => simp [totalOcc]
  | cons sp t ih =>
    rw [List.foldl_cons, ih, genes_foldl_none, totalOcc_cons,
      List.countP_eq_length_filter]
    constructor
    · rintro ⟨⟨h1, h2⟩, h3⟩
      exact ⟨h1, by omega⟩
    · rintro ⟨h1, h2⟩
      exact ⟨⟨h1, by omega⟩, by omega⟩

theorem tally_lookup (bs : List (String × List String)) (k : String) :
    (tally bs).lookup k =
      if totalOcc k bs = 0 then none else some (totalOcc k bs) := by
  by_cases h : totalOcc k bs = 0
  · rw [if_pos h]
    exact (tally_foldl_none bs [] k).mpr ⟨by simp, h⟩
  · rw [if_neg h]
    have hcnt : lookupCount (tally bs) k = totalOcc k bs := by
      have := tally_foldl_count bs [] k
      simpa [tally, lookupCount] using this
    have hne : (tally bs).lookup k ≠ none := by
      intro hno
      exact h ((tally_foldl_none bs [] k).mp hno).2
    cases hlk : (tally bs).lookup k with
    | none => exact absurd hlk hne
    | some c =>
      have : c = totalOcc k bs := by
        rw [← hcnt]
        simp [lookupCount, hlk]
      rw [this]

theorem filter_basename_nodup (genes : List String) (k : String)
    (h : (genes.map basename).Nodup) :
    (genes.filter (fun p => basename p = k)).length =
      if genes.any (fun p => basename p = k) then 1 else 0 := by
  induction genes with
  | nil => simp
  | cons p gs ih =>
    rw [List.map_cons, List.nodup_cons] at h
    by_cases hp : basename p = k
    · have hnone : gs.filter (fun q => basename q = k) = [] := by
        rw [List.filter_eq_nil_iff]
        intro q hq
        simp only [decide_eq_true_eq]
        intro hqk
        have hmem : basename q ∈ gs.map basename := List.mem_map_of_mem basename hq
        rw [show basename q = basename p from by rw [hqk, hp]] at hmem
        exact h.1 hmem
      simp [List.filter_cons, hp, hnone]
    · simp only [List.filter_cons, List.any_cons]
      simp [hp, ih h.2]

theorem totalOcc_eq_speciesCount (bs : List (String × List String)) (k : String)
    (hdist : ∀ sp ∈ bs, (sp.2.map basename).Nodup) :
    totalOcc k bs = speciesCount k bs := by
  induction bs with
  | nil => simp [totalOcc, speciesCount]
  | cons sp t ih =>
    rw [totalOcc_cons, filter_basename_nodup sp.2 k (hdist sp (List.mem_cons_self sp t))]
    have ht : totalOcc k t = speciesCount k t :=
      ih (fun x hx => hdist x (List.mem_cons_of_mem sp hx))
    rw [ht]
    simp only [speciesCount, List.filter_cons]
    by_cases hp : sp.2.any (fun p => basename p = k)
    · simp [hp]
      omega
    · simp [hp]

theorem speciesCount_le (k : String) (bs : List (String × List String)) :
    speciesCount k bs ≤ bs.length :=
  List.length_filter_le _ bs

/-! Bounds for the one-decimal round-half-to-even. -/

theorem rhe_nonneg (q : ℚ) (h : 0 ≤ q) : 0 ≤ rhe q := by
  have hf : (0 : ℤ) ≤ ⌊q⌋ := Int.le_floor.mpr (by exact_mod_cast h)
  unfold rhe
  split
  · exact hf
  · split
    · omega
    · split
      · exact hf
      · omega

theorem rhe_le (q : ℚ) (B : ℤ) (h : q ≤ (B : ℚ)) : rhe q ≤ B := by
  have hf : ⌊q⌋ ≤ B := by
    have := Int.floor_le_floor h
    simpa using this
  have hsucc : 1 / 2 ≤ q - (⌊q⌋ : ℚ) → ⌊q⌋ + 1 ≤ B := by
    intro hh
    by_contra hcon
    have hfB : ⌊q⌋ = B := by omega
    have hqf : q - (⌊q⌋ : ℚ) ≤ 0 := by
      rw [hfB]
      linarith
    linarith
  unfold rhe
  split
  · exact hf
  · split
    · next h1 h2 => exact hsucc (le_of_lt h2)
    · split
      · exact hf
      · next h1 h2 h3 =>
        have : q - (⌊q⌋ : ℚ) = 1 / 2 := le_antisymm (not_lt.mp h2) (not_lt.mp h1)
        exact hsucc (le_of_eq this.symm)

theorem pyRound1_nonneg (x : ℚ) (h : 0 ≤ x) : 0 ≤ pyRound1 x := by
  unfold pyRound1
  have : (0 : ℤ) ≤ rhe (x * 10) := rhe_nonneg (x * 10) (by linarith)
  have hcast : (0 : ℚ) ≤ (rhe (x * 10) : ℚ) := by exact_mod_cast this
  linarith

theorem pyRound1_le_100 (x : ℚ) (h : x ≤ 100) : pyRound1 x ≤ 100 := by
  unfold pyRound1
  have : rhe (x * 10) ≤ (1000 : ℤ) := by
    apply rhe_le
    push_cast
    linarith
  have hcast : (rhe (x * 10) : ℚ) ≤ 1000 := by exact_mod_cast this
  linarith

/-- Claim C1 (amended): provided no species lists the same ortholog
identifier twice, the occupancy table returned by get_Overlap maps each
observed ortholog identifier (the final path segment) to
round(count-of-species-possessing-it / number-of-species × 100, 1) under
round half to even, maps unobserved identifiers to nothing, and every value
in the table lies in [0, 100]. Exact positivity fails: with more than 2000
species a count of one rounds to 0.0, see the counterexample. -/
theorem get_Overlap_table (buscos : List (String × List String))
    (hdist : ∀ sp ∈ buscos, (sp.2.map basename).Nodup) :
    (∀ g : String,
      (get_Overlap buscos).lookup g =
        if 0 < speciesCount g buscos
        then some (pyRound1 ((speciesCount g buscos : ℚ) / (buscos.length : ℚ) * 100))
        else none)
    ∧ (∀ g : String, ∀ v : ℚ,
        (get_Overlap buscos).lookup g = some v → 0 ≤ v ∧ v ≤ 100) := by
  have hmain : ∀ g : String,
      (get_Overlap buscos).lookup g =
        if 0 < speciesCount g buscos
        then some (pyRound1 ((speciesCount g buscos : ℚ) / (buscos.length : ℚ) * 100))
        else none := by
    intro g
    have h1 : (get_Overlap buscos).lookup g =
        ((tally buscos).lookup g).map
          (fun c : ℕ => pyRound1 ((c : ℚ) / (buscos.length : ℚ) * 100)) := by
      unfold get_Overlap
      exact lookup_map_value (tally buscos)
        (fun _ c => pyRound1 ((c : ℚ) / (buscos.length : ℚ) * 100)) g
    rw [h1, tally_lookup, totalOcc_eq_speciesCount buscos g hdist]
    by_cases h : speciesCount g buscos = 0
    · simp [h]
    · simp [h, Nat.pos_of_ne_zero h]
  refine ⟨hmain, ?_⟩
  intro g v hv
  rw [hmain g] at hv
  by_cases h : 0 < speciesCount g buscos
  · rw [if_pos h] at hv
    have hveq : v = pyRound1 ((speciesCount g buscos : ℚ) / (buscos.length : ℚ) * 100) := by
      injection hv with hv2
      exact hv2.symm
    have hcn : speciesCount g buscos ≤ buscos.length := speciesCount_le g buscos
    have hn : 0 < buscos.length := lt_of_lt_of_le h hcn
    have hnq : (0 : ℚ) < (buscos.length : ℚ) := by exact_mod_cast hn
    have hx0 : 0 ≤ (speciesCount g buscos : ℚ) / (buscos.length : ℚ) * 100 := by
      positivity
    have hx100 : (speciesCount g buscos : ℚ) / (buscos.length : ℚ) * 100 ≤ 100 := by
      have hd1 : (speciesCount g buscos : ℚ) / (buscos.length : ℚ) ≤ 1 := by
        rw [div_le_one hnq]
        exact_mod_cast hcn
      linarith
    rw [hveq]
    exact ⟨pyRound1_nonneg _ hx0, pyRound1_le_100 _ hx100⟩
  · rw [if_neg h] at hv
    exact absurd hv (by simp)

/-- Witness for claim C1 at a concrete two-species dictionary with
duplicate-free per-species identifiers. -/
theorem get_Overlap_table_witness :
    (∀ g : String,
      (get_Overlap [("A", ["x/g"]), ("B", ["y/g", "z/h"])]).lookup g =
        if 0 < speciesCount g [("A", ["x/g"]), ("B", ["y/g", "z/h"])]
        then some (pyRound1 ((speciesCount g [("A", ["x/g"]), ("B", ["y/g", "z/h"])] : ℚ) /
          (([("A", ["x/g"]), ("B", ["y/g", "z/h"])] : List (String × List String)).length : ℚ) * 100))
        else none)
    ∧ (∀ g : String, ∀ v : ℚ,
        (get_Overlap [("A", ["x/g"]), ("B", ["y/g", "z/h"])]).lookup g = some v →
          0 ≤ v ∧ v ≤ 100) :=
  get_Overlap_table [("A", ["x/g"]), ("B", ["y/g", "z/h"])] (by decide)

theorem rhe_intCast (z : ℤ) : rhe (z : ℚ) = z := by
  unfold rhe
  rw [Int.floor_intCast]
  rw [if_pos]
  rw [sub_self]
  norm_num

theorem basename_g : basename "g" = "g" := by decide

theorem tallyG (bs : List (String × List String)) (hbs : ∀ sp ∈ bs, sp.2 = ["g"]) :
    ∀ k : Nat,
      bs.foldl (fun a sp => sp.2.foldl (fun a2 gene => bump a2 (basename gene)) a) [("g", k)]
        = [("g", k + bs.length)] := by
  induction bs with
  | nil => simp
  | cons sp t ih =>
    intro k
    rw [List.foldl_cons, hbs sp (List.mem_cons_self sp t)]
    have hstep : (["g"].foldl (fun a2 gene => bump a2 (basename gene)) [("g", k)])
        = [("g", k + 1)] := by
      rw [List.foldl_cons, List.foldl_nil, basename_g]
      simp [bump]
    rw [hstep, ih (fun x hx => hbs x (List.mem_cons_of_mem sp hx)) (k + 1)]
    have : k + 1 + t.length = k + (t.length + 1) := by omega
    rw [this]
    rfl

theorem tally_manySpecies : tally manySpecies = [("g", 2000), ("h", 1)] := by
  have hsplit : manySpecies =
      ((List.range 2000).map (fun i => (toString i, [if i = 2000 then "h" else "g"])))
        ++ [(toString 2000, ["h"])] := by
    rw [manySpecies, List.range_succ, List.map_append]
    simp
  have hfront : ∀ sp ∈ (List.range 2000).map
      (fun i => (toString i, [if i = 2000 then "h" else "g"])), sp.2 = ["g"] := by
    intro sp hsp
    obtain ⟨i, hi, rfl⟩ := List.mem_map.mp hsp
    have hlt : i < 2000 := List.mem_range.mp hi
    simp [Nat.ne_of_lt hlt]
  rw [tally, hsplit, List.foldl_append]
  have hfront2 : ((List.range 2000).map
      (fun i => (toString i, [if i = 2000 then "h" else "g"]))).foldl
        (fun a sp => sp.2.foldl (fun a2 gene => bump a2 (basename gene)) a) []
      = [("g", 2000)] := by
    cases hc : (List.range 2000).map (fun i => (toString i, [if i = 2000 then "h" else "g"])) with
    | nil => exact absurd (congrArg List.length hc) (by simp)
    | cons sp t =>
      rw [List.foldl_cons]
      have hsp : sp.2 = ["g"] := hfront sp (by rw [hc]; exact List.mem_cons_self sp t)
      have ht : ∀ x ∈ t, x.2 = ["g"] := by
        intro x hx
        exact hfront x (by rw [hc]; exact List.mem_cons_of_mem sp hx)
      rw [hsp]
      have hstep : (["g"].foldl (fun a2 gene => bump a2 (basename gene)) ([] : List (String × Nat)))
          = [("g", 1)] := by
        rw [List.foldl_cons, List.foldl_nil, basename_g]
        rfl
      rw [hstep, tallyG t ht 1]
      have hlen : t.length = 1999 := by
        have := congrArg List.length hc
        simp at this
        omega
      rw [hlen]
  rw [hfront2, List.foldl_cons, List.foldl_nil]
  have hb : basename "h" = "h" := by decide
  simp only [List.foldl_cons, List.foldl_nil, hb]
  decide

theorem length_manySpecies : manySpecies.length = 2001 := by
  rw [manySpecies]
  simp

theorem pyRound1_tiny : pyRound1 ((1 : ℚ) / 2001 * 100) = 0 := by
  have hq : (1 : ℚ) / 2001 * 100 * 10 = 1000 / 2001 := by norm_num
  have hfl : ⌊(1000 : ℚ) / 2001⌋ = 0 := by
    rw [Int.floor_eq_iff]
    constructor
    · norm_num
    · norm_num
  rw [pyRound1, hq, rhe]
  rw [hfl]
  rw [if_pos]
  · norm_num
  · push_cast
    norm_num

/-- Counterexample to claim C1 as stated. First, the counting loop counts
path occurrences, not distinct possessing species: a single species listing
two paths with basename g yields table value 200.0, which differs from
round(1/1 × 100, 1) = 100.0 and exceeds 100. Second, every value need not
exceed 0: with 2001 species of which exactly one possesses ortholog h, the
value for h is round(100/2001, 1) = 0.0, which is outside (0, 100]. -/
theorem get_Overlap_counterexample :
    ((get_Overlap [("A", ["x/g", "y/g"])]).lookup "g" = some 200
      ∧ pyRound1 ((speciesCount "g" [("A", ["x/g", "y/g"])] : ℚ) /
          (([("A", ["x/g", "y/g"])] : List (String × List String)).length : ℚ) * 100) = 100
      ∧ (200 : ℚ) ≠ 100 ∧ ¬ ((200 : ℚ) ≤ 100))
    ∧ ((get_Overlap manySpecies).lookup "h" = some 0 ∧ ¬ ((0 : ℚ) < 0)) := by
  have hr200 : pyRound1 ((2 : ℚ) / 1 * 100) = 200 := by
    have h1 : (2 : ℚ) / 1 * 100 * 10 = ((2000 : ℤ) : ℚ) := by norm_num
    rw [pyRound1, h1, rhe_intCast]
    norm_num
  have hr100 : pyRound1 ((1 : ℚ) / 1 * 100) = 100 := by
    have h1 : (1 : ℚ) / 1 * 100 * 10 = ((1000 : ℤ) : ℚ) := by norm_num
    rw [pyRound1, h1, rhe_intCast]
    norm_num
  refine ⟨⟨?_, ?_, by norm_num, by norm_num⟩, ⟨?_, by norm_num⟩⟩
  · have ht : tally [("A", ["x/g", "y/g"])] = [("g", 2)] := by decide
    rw [get_Overlap, ht]
    simp only [List.map_cons, List.map_nil, List.lookup]
    rw [show (("g" == "g") : Bool) = true from by decide]
    simp only [List.length_cons, List.length_nil]
    rw [show (((2 : ℕ) : ℚ) / ((0 + 1 : ℕ) : ℚ) * 100) = (2 : ℚ) / 1 * 100 from by push_cast; norm_num]
    rw [hr200]
  · have hsc : speciesCount "g" [("A", ["x/g", "y/g"])] = 1 := by decide
    rw [hsc]
    simp only [List.length_cons, List.length_nil]
    rw [show (((1 : ℕ) : ℚ) / ((0 + 1 : ℕ) : ℚ) * 100) = (1 : ℚ) / 1 * 100 from by push_cast; norm_num]
    exact hr100
  · rw [get_Overlap, tally_manySpecies, length_manySpecies]
    simp only [List.map_cons, List.map_nil, List.lookup]
    rw [show (("h" == "g") : Bool) = false from by decide]
    rw [show (("h" == "h") : Bool) = true from by decide]
    rw [show (((1 : ℕ) : ℚ) / ((2001 : ℕ) : ℚ) * 100) = (1 : ℚ) / 2001 * 100 from by
      push_cast; norm_num]
    rw [pyRound1_tiny]

/-! Lemmas about filter_BUSCOs, settling claims C5, C2 and C8. -/

theorem maxOccup_mem (v : ℚ) (vs : List ℚ) : maxOccup v vs ∈ v :: vs := by
  induction vs generalizing v with
  | nil => simp [maxOccup]
  | cons w t ih =>
    have hstep : maxOccup v (w :: t) = maxOccup (max v w) t := rfl
    rw [hstep]
    rcases List.mem_cons.mp (ih (max v w)) with h | h
    · rcases max_choice v w with hm | hm
      · rw [h, hm]
        exact List.mem_cons_self v (w :: t)
      · rw [h, hm]
        exact List.mem_cons_of_mem v (List.mem_cons_self w t)
    · exact List.mem_cons_of_mem v (List.mem_cons_of_mem w h)

theorem le_maxOccup (v : ℚ) (vs : List ℚ) : ∀ x ∈ v :: vs, x ≤ maxOccup v vs := by
  induction vs generalizing v with
  | nil =>
    intro x hx
    simp at hx
    simp [maxOccup, hx]
  | cons w t ih =>
    intro x hx
    have hstep : maxOccup v (w :: t) = maxOccup (max v w) t := rfl
    rw [hstep]
    rcases List.mem_cons.mp hx with hx1 | hx2
    · calc x = v := hx1
        _ ≤ max v w := le_max_left v w
        _ ≤ maxOccup (max v w) t := ih (max v w) (max v w) (List.mem_cons_self _ t)
    · rcases List.mem_cons.mp hx2 with hx3 | hx4
      · calc x = w := hx3
          _ ≤ max v w := le_max_right v w
          _ ≤ maxOccup (max v w) t := ih (max v w) (max v w) (List.mem_cons_self _ t)
      · exact ih (max v w) x (List.mem_cons_of_mem _ hx4)

/-- Claim C5: when no occupancy value reaches the shared threshold,
filter_BUSCOs terminates the stage fatally, before writing any file, and
the fatal message names the maximum occupancy actually observed: the error
payload is a member of the observed values and bounds them all. -/
theorem filter_BUSCOs_no_qualifying (shared : ℚ) (overlap : List (String × ℚ))
    (buscos : List (String × List String)) (fs : String → String) (mode : Mode)
    (v0 : ℚ) (vs : List ℚ)
    (hov : overlap.map Prod.snd = v0 :: vs)
    (hall : ∀ gv ∈ overlap, gv.2 < shared) :
    filter_BUSCOs shared overlap buscos fs mode
        = Except.error (FilterError.noShared (maxOccup v0 vs))
      ∧ maxOccup v0 vs ∈ overlap.map Prod.snd
      ∧ (∀ v ∈ overlap.map Prod.snd, v ≤ maxOccup v0 vs) := by
  have hallb : overlap.all (fun gv => decide (gv.2 < shared)) = true := by
    rw [List.all_eq_true]
    intro x hx
    exact decide_eq_true (hall x hx)
  refine ⟨?_, ?_, ?_⟩
  · unfold filter_BUSCOs
    rw [if_pos hallb, hov]
  · rw [hov]
    exact maxOccup_mem v0 vs
  · rw [hov]
    exact le_maxOccup v0 vs

/-- Witness for claim C5: a two-gene table whose occupancies 50 and 80 both
miss the threshold 100; the error names 80, the maximum observed. -/
theorem filter_BUSCOs_no_qualifying_witness :
    filter_BUSCOs 100 [("g.fna", 50), ("h.fna", 80)] [] (fun _ => "") Mode.genome
        = Except.error (FilterError.noShared (maxOccup 50 [80]))
      ∧ maxOccup 50 [80] ∈ ([("g.fna", 50), ("h.fna", 80)] : List (String × ℚ)).map Prod.snd
      ∧ (∀ v ∈ ([("g.fna", 50), ("h.fna", 80)] : List (String × ℚ)).map Prod.snd,
          v ≤ maxOccup 50 [80]) :=
  filter_BUSCOs_no_qualifying 100 [("g.fna", 50), ("h.fna", 80)] [] (fun _ => "")
    Mode.genome 50 [80] (by decide)
    (by
      intro gv hgv
      rcases List.mem_cons.mp hgv with h | h
      · rw [h]; norm_num
      · rcases List.mem_cons.mp h with h2 | h2
        · rw [h2]; norm_num
        · simp at h2)

theorem length_string_mk (cs : List Char) : (String.mk cs).length = cs.length := rfl

theorem chunk60_length : ∀ fuel : Nat, ∀ cs : List Char, cs.length ≤ fuel →
    (chunk60 fuel cs).length = cs.length + cs.length / 60 := by
  intro fuel
  induction fuel with
  | zero =>
    intro cs h
    have hnil : cs = [] := List.eq_nil_of_length_eq_zero (by omega)
    rw [hnil]
    simp [chunk60]
  | succ f ih =>
    intro cs h
    rw [chunk60]
    by_cases h60 : 60 ≤ cs.length
    · rw [if_pos h60]
      have hdrop : (cs.drop 60).length = cs.length - 60 := by simp
      have hrec : (chunk60 f (cs.drop 60)).length
          = (cs.length - 60) + (cs.length - 60) / 60 := by
        rw [ih (cs.drop 60) (by omega), hdrop]
      have hdiv : cs.length / 60 = (cs.length - 60) / 60 + 1 :=
        Nat.div_eq_sub_div (by norm_num) h60
      simp only [List.length_append, List.length_take, List.length_cons, hrec]
      omega
    · rw [if_neg h60]
      have : cs.length / 60 = 0 := Nat.div_eq_of_lt (by omega)
      omega

theorem auto_linebreak_length (s : String) :
    (auto_linebreak s).length = s.length + s.length / 60 := by
  rw [auto_linebreak, length_string_mk, chunk60_length s.data.length s.data le_rfl]
  rfl

theorem geneRecordsGo_length (gene : String) (fs : String → String)
    (fp? : Option (String × List String)) (L : Nat)
    (hfp : ∀ fp, fp? = some fp → ∀ p ∈ fp.2, basename p = gene → (fs p).length = L) :
    ∀ bs : List (String × List String), ∀ rs,
      geneRecordsGo gene fs fp? bs = some rs →
      (∀ sp ∈ bs, ∀ p ∈ sp.2, basename p = gene → (fs p).length = L) →
      ∀ r ∈ rs, r.2.length = L := by
  intro bs
  induction bs with
  | nil =>
    intro rs hgo hlen r hr
    simp only [geneRecordsGo, Option.some.injEq] at hgo
    rw [← hgo] at hr
    simp at hr
  | cons sp t ih =>
    intro rs hgo hlen r hr
    simp only [geneRecordsGo] at hgo
    cases hrec : geneRecordsGo gene fs fp? t with
    | none =>
      rw [hrec] at hgo
      simp at hgo
    | some tail =>
      rw [hrec] at hgo
      dsimp only at hgo
      have htail : ∀ r2 ∈ tail, r2.2.length = L :=
        ih tail hrec (fun x hx => hlen x (List.mem_cons_of_mem sp hx))
      by_cases hp : presentIn gene sp.2
      · rw [if_pos hp] at hgo
        simp only [Option.some.injEq] at hgo
        rw [← hgo] at hr
        rcases List.mem_append.mp hr with hr1 | hr2
        · simp only [realRecords, List.mem_map] at hr1
          obtain ⟨p, hpmem, rfl⟩ := hr1
          have hpm := List.mem_filter.mp hpmem
          exact hlen sp (List.mem_cons_self sp t) p hpm.1 (by simpa using hpm.2)
        · exact htail r hr2
      · rw [if_neg hp] at hgo
        cases hfpc : fp? with
        | none =>
          rw [hfpc] at hgo
          simp at hgo
        | some fp =>
          rw [hfpc] at hgo
          simp only [Option.some.injEq] at hgo
          rw [← hgo] at hr
          rcases List.mem_append.mp hr with hr1 | hr2
          · simp only [gapRecords, List.mem_map] at hr1
            obtain ⟨p, hpmem, rfl⟩ := hr1
            have hpm := List.mem_filter.mp hpmem
            have hplen : (fs p).length = L :=
              hfp fp hfpc p hpm.1 (by simpa using hpm.2)
            simp only [length_string_mk, List.length_replicate]
            exact hplen
          · exact htail r hr2

theorem geneRecordsGo_fst (gene : String) (fs : String → String)
    (fp : String × List String)
    (hfp1 : (fp.2.filter (fun p => basename p = gene)).length = 1) :
    ∀ bs : List (String × List String), ∀ rs,
      geneRecordsGo gene fs (some fp) bs = some rs →
      (∀ sp ∈ bs, (sp.2.filter (fun p => basename p = gene)).length
        = if presentIn gene sp.2 then 1 else 0) →
      rs.map Prod.fst = bs.map Prod.fst := by
  intro bs
  induction bs with
  | nil =>
    intro rs hgo hcount
    simp only [geneRecordsGo, Option.some.injEq] at hgo
    rw [← hgo]
    simp
  | cons sp t ih =>
    intro rs hgo hcount
    simp only [geneRecordsGo] at hgo
    cases hrec : geneRecordsGo gene fs (some fp) t with
    | none =>
      rw [hrec] at hgo
      simp at hgo
    | some tail =>
      rw [hrec] at hgo
      dsimp only at hgo
      have htail : tail.map Prod.fst = t.map Prod.fst :=
        ih tail hrec (fun x hx => hcount x (List.mem_cons_of_mem sp hx))
      by_cases hp : presentIn gene sp.2
      · rw [if_pos hp] at hgo
        simp only [Option.some.injEq] at hgo
        have hc : (sp.2.filter (fun p => basename p = gene)).length = 1 := by
          rw [hcount sp (List.mem_cons_self sp t), if_pos hp]
        obtain ⟨p, hpeq⟩ := List.length_eq_one.mp hc
        rw [← hgo, List.map_append, htail]
        simp [realRecords, hpeq]
      · rw [if_neg hp] at hgo
        simp only [Option.some.injEq] at hgo
        obtain ⟨p, hpeq⟩ := List.length_eq_one.mp hfp1
        rw [← hgo, List.map_append, htail]
        simp [gapRecords, hpeq]

theorem geneRecords_fst (gene : String) (buscos : List (String × List String))
    (fs : String → String) (rs : List (String × String))
    (hcount : ∀ sp ∈ buscos, (sp.2.filter (fun p => basename p = gene)).length
      = if presentIn gene sp.2 then 1 else 0)
    (hgo : geneRecords gene buscos fs = some rs) :
    rs.map Prod.fst = buscos.map Prod.fst := by
  rw [geneRecords] at hgo
  cases hfind : buscos.find? (fun sp => presentIn gene sp.2) with
  | some fp =>
    rw [hfind] at hgo
    have hfpmem : fp ∈ buscos := List.mem_of_find?_eq_some hfind
    have hfppres : presentIn gene fp.2 := by
      have := List.find?_some hfind
      simpa using this
    have hfp1 : (fp.2.filter (fun p => basename p = gene)).length = 1 := by
      rw [hcount fp hfpmem, if_pos hfppres]
    exact geneRecordsGo_fst gene fs fp hfp1 buscos rs hgo hcount
  | none =>
    rw [hfind] at hgo
    cases hbs : buscos with
    | nil =>
      rw [hbs] at hgo
      simp only [geneRecordsGo, Option.some.injEq] at hgo
      rw [← hgo]
      rfl
    | cons sp t =>
      exfalso
      have hnp : ¬ presentIn gene sp.2 := by
        have := List.find?_eq_none.mp hfind sp (by rw [hbs]; exact List.mem_cons_self sp t)
        simpa using this
      rw [hbs] at hgo
      simp only [geneRecordsGo] at hgo
      cases hrec : geneRecordsGo gene fs none t with
      | none =>
        rw [hrec] at hgo
        simp at hgo
      | some tail =>
        rw [hrec] at hgo
        dsimp only at hgo
        rw [if_neg hnp] at hgo
        simp at hgo

theorem filterFiles_mem (shared : ℚ) (buscos : List (String × List String))
    (fs : String → String) (mode : Mode) :
    ∀ ov : List (String × ℚ), ∀ files,
      filterFiles shared buscos fs mode ov = Except.ok files →
      ∀ f ∈ files, ∃ gv, gv ∈ ov ∧ shared ≤ gv.2 ∧ buscos ≠ [] ∧
        ∃ rs, geneRecords gv.1 buscos fs = some rs ∧ f = (MS_name mode gv.1, rs) := by
  intro ov
  induction ov with
  | nil =>
    intro files h f hf
    simp only [filterFiles, Except.ok.injEq] at h
    rw [← h] at hf
    simp at hf
  | cons gv rest ih =>
    intro files h f hf
    simp only [filterFiles] at h
    by_cases hc : shared ≤ gv.2 ∧ buscos ≠ []
    · rw [if_pos hc] at h
      cases hgr : geneRecords gv.1 buscos fs with
      | none =>
        rw [hgr] at h
        simp at h
      | some rs =>
        rw [hgr] at h
        cases hrec : filterFiles shared buscos fs mode rest with
        | error e =>
          rw [hrec] at h
          simp at h
        | ok tail =>
          rw [hrec] at h
          simp only [Except.ok.injEq] at h
          rw [← h] at hf
          rcases List.mem_cons.mp hf with hf1 | hf2
          · exact ⟨gv, List.mem_cons_self gv rest, hc.1, hc.2, rs, hgr, hf1⟩
          · obtain ⟨gv2, hm, hrest⟩ := ih tail hrec f hf2
            exact ⟨gv2, List.mem_cons_of_mem gv hm, hrest⟩
    · rw [if_neg hc] at h
      obtain ⟨gv2, hm, hrest⟩ := ih files h f hf
      exact ⟨gv2, List.mem_cons_of_mem gv hm, hrest⟩

theorem filter_BUSCOs_ok_files (shared : ℚ) (overlap : List (String × ℚ))
    (buscos : List (String × List String)) (fs : String → String) (mode : Mode)
    (files : List (String × List (String × String)))
    (hok : filter_BUSCOs shared overlap buscos fs mode = Except.ok files) :
    filterFiles shared buscos fs mode overlap = Except.ok files := by
  unfold filter_BUSCOs at hok
  by_cases hcond : overlap.all (fun gv => decide (gv.2 < shared)) = true
  · rw [if_pos hcond] at hok
    cases hmv : overlap.map Prod.snd with
    | nil =>
      rw [hmv] at hok
      exact absurd hok (by simp)
    | cons v vs =>
      rw [hmv] at hok
      exact absurd hok (by simp)
  · rw [if_neg hcond] at hok
    exact hok

/-- Claim C2 (amended): in the filtered-alignment file filter_BUSCOs writes
for a qualifying ortholog, all entries have equal length (both as raw
sequences and after 60-column wrapping) provided every stored sequence whose
basename matches that ortholog has the same length. Without that proviso
the entries differ: the gap runs copy the length of the first present
species while each present species contributes its own raw length, see the
counterexample. -/
theorem filter_BUSCOs_equal_lengths (shared : ℚ) (overlap : List (String × ℚ))
    (buscos : List (String × List String)) (fs : String → String) (mode : Mode)
    (files : List (String × List (String × String))) (SeqLen : String → Nat)
    (hok : filter_BUSCOs shared overlap buscos fs mode = Except.ok files)
    (hlen : ∀ gv ∈ overlap, ∀ sp ∈ buscos, ∀ p ∈ sp.2,
      basename p = gv.1 → (fs p).length = SeqLen gv.1) :
    ∀ f ∈ files, ∀ r ∈ f.2, ∀ r2 ∈ f.2,
      r.2.length = r2.2.length
        ∧ (auto_linebreak r.2).length = (auto_linebreak r2.2).length := by
  intro f hf r hr r2 hr2
  have hff := filter_BUSCOs_ok_files shared overlap buscos fs mode files hok
  obtain ⟨gv, hgv, hsh, hne, rs, hgr, hfeq⟩ :=
    filterFiles_mem shared buscos fs mode overlap files hff f hf
  have hrs : f.2 = rs := by rw [hfeq]
  rw [hrs] at hr hr2
  unfold geneRecords at hgr
  have hfp : ∀ fp, buscos.find? (fun sp => presentIn gv.1 sp.2) = some fp →
      ∀ p ∈ fp.2, basename p = gv.1 → (fs p).length = SeqLen gv.1 := by
    intro fp hfind p hp hb
    exact hlen gv hgv fp (List.mem_of_find?_eq_some hfind) p hp hb
  have hall := geneRecordsGo_length gv.1 fs
    (buscos.find? (fun sp => presentIn gv.1 sp.2)) (SeqLen gv.1) hfp buscos rs hgr
    (fun sp hsp p hp hb => hlen gv hgv sp hsp p hp hb)
  have h1 := hall r hr
  have h2 := hall r2 hr2
  constructor
  · rw [h1, h2]
  · rw [auto_linebreak_length, auto_linebreak_length, h1, h2]

/-- Witness for claim C2 at a run with one present species (raw sequence
AT) and one absent species (gap run of the same length): the two entries of
the written file have equal raw and wrapped lengths. -/
theorem filter_BUSCOs_equal_lengths_witness :
    ("AT" : String).length = ("--" : String).length
      ∧ (auto_linebreak "AT").length = (auto_linebreak "--").length :=
  filter_BUSCOs_equal_lengths 100 [("g.fna", 100)]
    [("A", ["p/g.fna"]), ("B", ["q/h.fna"])] (fun _ => "AT") Mode.genome
    [("g_MS.fna", [("A", "AT"), ("B", "--")])] (fun _ => 2)
    (by decide) (by decide)
    ("g_MS.fna", [("A", "AT"), ("B", "--")]) (by decide)
    ("A", "AT") (by decide) ("B", "--") (by decide)

/-- Counterexample to claim C2 as stated: two present species whose raw
sequences for the qualifying ortholog have lengths 2 and 4 produce one
filtered file whose two entries have unequal lengths. -/
theorem filter_BUSCOs_unequal_lengths :
    filter_BUSCOs 100 [("g.fna", 100)] [("A", ["p/g.fna"]), ("B", ["q/g.fna"])]
        (fun p => if p = "p/g.fna" then "AT" else "ATAT") Mode.genome
      = Except.ok [("g_MS.fna", [("A", "AT"), ("B", "ATAT")])]
    ∧ ("AT" : String).length = 2 ∧ ("ATAT" : String).length = 4
    ∧ (2 : Nat) ≠ 4 := by
  refine ⟨by decide, by decide, by decide, by decide⟩

/-- Claim C8 (amended): the filtered-alignment file of a qualifying ortholog
carries exactly one record per species of the input dictionary, in
dictionary order, provided each species stores exactly one basename-matching
path when its suffix-based presence test succeeds and none otherwise.
Without the proviso the record count drifts: a species with two
basename-matching paths contributes two records (see the counterexample),
and a species passing the suffix test with no exact basename match
contributes none. -/
theorem filter_BUSCOs_one_per_species (shared : ℚ) (overlap : List (String × ℚ))
    (buscos : List (String × List String)) (fs : String → String) (mode : Mode)
    (files : List (String × List (String × String)))
    (hok : filter_BUSCOs shared overlap buscos fs mode = Except.ok files)
    (hcount : ∀ gv ∈ overlap, ∀ sp ∈ buscos,
      (sp.2.filter (fun p => basename p = gv.1)).length
        = if presentIn gv.1 sp.2 then 1 else 0) :
    ∀ f ∈ files, f.2.map Prod.fst = buscos.map Prod.fst := by
  intro f hf
  have hff := filter_BUSCOs_ok_files shared overlap buscos fs mode files hok
  obtain ⟨gv, hgv, hsh, hne, rs, hgr, hfeq⟩ :=
    filterFiles_mem shared buscos fs mode overlap files hff f hf
  have hrs : f.2 = rs := by rw [hfeq]
  rw [hrs]
  exact geneRecords_fst gv.1 buscos fs rs (fun sp hsp => hcount gv hgv sp hsp) hgr

/-- Witness for claim C8 at a run with one present and one absent species:
the filtered file holds one record for each of the two species, in order. -/
theorem filter_BUSCOs_one_per_species_witness :
    ([("A", "AT"), ("B", "--")] : List (String × String)).map Prod.fst
      = ([("A", ["p/g.fna"]), ("B", ["q/h.fna"])] : List (String × List String)).map Prod.fst :=
  filter_BUSCOs_one_per_species 100 [("g.fna", 100)]
    [("A", ["p/g.fna"]), ("B", ["q/h.fna"])] (fun _ => "AT") Mode.genome
    [("g_MS.fna", [("A", "AT"), ("B", "--")])]
    (by decide) (by decide)
    ("g_MS.fna", [("A", "AT"), ("B", "--")]) (by decide)

/-- Counterexample to claim C8 as stated: one species listing two paths with
the qualifying ortholog's basename receives two records in the filtered
file, so the file has two FASTA headers for a one-species dictionary. -/
theorem filter_BUSCOs_duplicate_records :
    filter_BUSCOs 100 [("g.fna", 200)] [("A", ["p/g.fna", "q/g.fna"])]
        (fun _ => "AT") Mode.genome
      = Except.ok [("g_MS.fna", [("A", "AT"), ("A", "AT")])]
    ∧ ([("A", "AT"), ("A", "AT")] : List (String × String)).map Prod.fst
        ≠ ([("A", ["p/g.fna", "q/g.fna"])] : List (String × List String)).map Prod.fst := by
  refine ⟨by decide, by decide⟩

/-! Lemmas about the consistency scorer, settling claims C3 and C4. -/

theorem count_filter_as_sum (c : Char) (t : List Char) :
    (t.filter (fun d => d = c)).length =
      (Finset.range t.length).sum (fun y => if t.getD y ' ' = c then 1 else 0) := by
  induction t with
  | nil => simp
  | cons d t2 ih =>
    rw [List.filter_cons, List.length_cons]
    rw [Finset.sum_range_succ' (fun y => if (d :: t2).getD y ' ' = c then 1 else 0) t2.length]
    have hshift : ∀ y, (d :: t2).getD (y + 1) ' ' = t2.getD y ' ' := by
      intro y
      rfl
    have hzero : (d :: t2).getD 0 ' ' = d := rfl
    simp only [hshift, hzero]
    by_cases hd : d = c
    · simp [hd, ih]
    · simp [hd, ih]

theorem pairMatches_as_sum (l : List Char) :
    pairMatches l =
      (Finset.range l.length).sum (fun x =>
        (Finset.range l.length).sum (fun y =>
          if x < y ∧ l.getD x ' ' = l.getD y ' ' then 1 else 0)) := by
  induction l with
  | nil => simp [pairMatches]
  | cons c t ih =>
    rw [pairMatches, List.length_cons]
    rw [Finset.sum_range_succ' (fun x =>
      (Finset.range (t.length + 1)).sum (fun y =>
        if x < y ∧ (c :: t).getD x ' ' = (c :: t).getD y ' ' then 1 else 0)) t.length]
    have hzero : (Finset.range (t.length + 1)).sum (fun y =>
        if 0 < y ∧ (c :: t).getD 0 ' ' = (c :: t).getD y ' ' then 1 else 0)
        = (t.filter (fun d => d = c)).length := by
      rw [Finset.sum_range_succ' (fun y =>
        if 0 < y ∧ (c :: t).getD 0 ' ' = (c :: t).getD y ' ' then 1 else 0) t.length]
      rw [count_filter_as_sum c t]
      have h1 : ∀ y, (if 0 < y + 1 ∧ (c :: t).getD 0 ' ' = (c :: t).getD (y + 1) ' '
          then 1 else 0) = if t.getD y ' ' = c then 1 else 0 := by
        intro y
        have hz : (c :: t).getD 0 ' ' = c := rfl
        have hs : (c :: t).getD (y + 1) ' ' = t.getD y ' ' := rfl
        rw [hz, hs]
        by_cases hh : t.getD y ' ' = c
        · rw [if_pos ⟨Nat.succ_pos y, hh.symm⟩, if_pos hh]
        · rw [if_neg hh, if_neg]
          rintro ⟨h3, h4⟩
          exact hh h4.symm
      simp only [h1]
      simp
    have hshiftx : (Finset.range t.length).sum (fun x =>
        (Finset.range (t.length + 1)).sum (fun y =>
          if x + 1 < y ∧ (c :: t).getD (x + 1) ' ' = (c :: t).getD y ' ' then 1 else 0))
        = pairMatches t := by
      rw [ih]
      apply Finset.sum_congr rfl
      intro x hx
      rw [Finset.sum_range_succ' (fun y =>
        if x + 1 < y ∧ (c :: t).getD (x + 1) ' ' = (c :: t).getD y ' ' then 1 else 0) t.length]
      have h2 : ∀ y, (if x + 1 < y + 1 ∧ (c :: t).getD (x + 1) ' ' = (c :: t).getD (y + 1) ' '
          then 1 else 0) = if x < y ∧ t.getD x ' ' = t.getD y ' ' then 1 else 0 := by
        intro y
        have hsx : (c :: t).getD (x + 1) ' ' = t.getD x ' ' := rfl
        have hsy : (c :: t).getD (y + 1) ' ' = t.getD y ' ' := rfl
        rw [hsx, hsy]
        by_cases hh : x < y ∧ t.getD x ' ' = t.getD y ' '
        · rw [if_pos hh, if_pos ⟨by omega, hh.2⟩]
        · rw [if_neg hh]
          rw [if_neg (by intro hcon; exact hh ⟨by omega, hcon.2⟩)]
      simp only [h2]
      simp
    rw [hzero, hshiftx]
    exact Nat.add_comm _ _

theorem specColMatches_eq_pairMatches (aln : List (List Char)) (i : Nat) :
    specColMatches aln i = pairMatches (column aln i) := by
  rw [specColMatches, pairMatches_as_sum]
  rw [Finset.card_filter, Finset.sum_product]
  have hlen : (column aln i).length = aln.length := by
    simp [column]
  rw [hlen]

theorem list_range_map_sum (L : Nat) (f : Nat → ℚ) :
    ((List.range L).map f).sum = (Finset.range L).sum f := by
  induction L with
  | zero => simp
  | succ k ih =>
    rw [List.range_succ, List.map_append, List.sum_append, Finset.sum_range_succ, ih]
    simp

theorem pairMatches_replicate (n : Nat) (c : Char) :
    pairMatches (List.replicate n c) = n.choose 2 := by
  induction n with
  | zero => rfl
  | succ k ih =>
    rw [List.replicate_succ, pairMatches]
    have hfil : (List.replicate k c).filter (fun d => d = c) = List.replicate k c := by
      rw [List.filter_eq_self]
      intro a ha
      simp [List.eq_of_mem_replicate ha]
    rw [hfil, ih, List.length_replicate]
    rw [Nat.choose_succ_succ k 1]
    rw [Nat.choose_one_right]

theorem pairMatches_pairwise_ne (l : List Char)
    (h : l.Pairwise (fun a b => a ≠ b)) : pairMatches l = 0 := by
  induction l with
  | nil => rfl
  | cons c t ih =>
    rw [List.pairwise_cons] at h
    rw [pairMatches]
    have hfil : t.filter (fun d => d = c) = [] := by
      rw [List.filter_eq_nil_iff]
      intro a ha
      simp only [decide_eq_true_eq]
      intro hac
      exact (h.1 a ha) hac.symm
    rw [hfil, ih h.2]
    rfl

theorem choose_two_cast (n : Nat) :
    (n : ℚ) * ((n : ℚ) - 1) / 2 = (n.choose 2 : ℚ) :=
  (@Nat.cast_choose_two ℚ _ _ n).symm

/-- Claim C3: the scorer computes the mean over alignment columns of
matching unordered sequence pairs over total unordered pairs; the score is
1.0 for identical sequences and 0.0 when no pair matches at any column, and
the file's destination is Passed_MSA exactly when the score reaches 0.45,
else Failed_MSA (the move target is unique, modelling move-not-copy). -/
theorem sum_of_pairs_spec (s0 : List Char) (rest : List (List Char))
    (hn : 2 ≤ (s0 :: rest).length) (hL : 1 ≤ s0.length)
    (_hrect : ∀ s ∈ s0 :: rest, s.length = s0.length) :
    sum_of_pairs_score (s0 :: rest) = some (specScore (s0 :: rest) s0.length)
    ∧ ((∀ s ∈ s0 :: rest, s = s0) → sum_of_pairs_score (s0 :: rest) = some 1)
    ∧ ((∀ i < s0.length, List.Pairwise (fun a b => a ≠ b) (column (s0 :: rest) i)) →
        sum_of_pairs_score (s0 :: rest) = some 0)
    ∧ sum_of_pairs_dest (s0 :: rest)
        = some (if (45 : ℚ) / 100 ≤ specScore (s0 :: rest) s0.length
                then "Passed_MSA" else "Failed_MSA") := by
  have hnfalse : ¬ ((s0 :: rest).length ≤ 1 ∨ s0.length = 0) := by
    push_neg
    constructor
    · omega
    · omega
  have hchoosepos : 0 < ((s0 :: rest).length).choose 2 := Nat.choose_pos hn
  have hchooseq : ((((s0 :: rest).length).choose 2 : ℕ) : ℚ) ≠ 0 := by
    exact_mod_cast Nat.pos_iff_ne_zero.mp hchoosepos
  have hLq : ((s0.length : ℕ) : ℚ) ≠ 0 := by
    exact_mod_cast Nat.pos_iff_ne_zero.mp (by omega)
  have hmain : sum_of_pairs_score (s0 :: rest) = some (specScore (s0 :: rest) s0.length) := by
    show (if (s0 :: rest).length ≤ 1 ∨ s0.length = 0 then none
      else some ((((List.range s0.length).map
        (fun i => (pairMatches (column (s0 :: rest) i) : ℚ) /
          (((s0 :: rest).length : ℚ) * (((s0 :: rest).length : ℚ) - 1) / 2))).sum)
            / (s0.length : ℚ))) = some (specScore (s0 :: rest) s0.length)
    rw [if_neg hnfalse]
    rw [list_range_map_sum]
    rw [specScore]
    congr 1
    congr 1
    apply Finset.sum_congr rfl
    intro i hi
    rw [specColMatches_eq_pairMatches, choose_two_cast]
  refine ⟨hmain, ?_, ?_, ?_⟩
  · intro hall
    rw [hmain]
    have hcol : ∀ i, column (s0 :: rest) i = List.replicate (s0 :: rest).length (s0.getD i ' ') := by
      intro i
      rw [List.eq_replicate_iff]
      refine ⟨by simp [column], ?_⟩
      intro b hb
      rw [column] at hb
      obtain ⟨s, hs, rfl⟩ := List.mem_map.mp hb
      rw [hall s hs]
    have hterm : ∀ i ∈ Finset.range s0.length,
        (specColMatches (s0 :: rest) i : ℚ) / (((s0 :: rest).length).choose 2 : ℚ) = 1 := by
      intro i hi
      rw [specColMatches_eq_pairMatches, hcol i, pairMatches_replicate]
      exact div_self hchooseq
    rw [specScore, Finset.sum_congr rfl hterm]
    simp only [Finset.sum_const, Finset.card_range, nsmul_eq_mul, mul_one]
    rw [div_self hLq]
  · intro hdist
    rw [hmain]
    have hterm : ∀ i ∈ Finset.range s0.length,
        (specColMatches (s0 :: rest) i : ℚ) / (((s0 :: rest).length).choose 2 : ℚ) = 0 := by
      intro i hi
      rw [specColMatches_eq_pairMatches,
        pairMatches_pairwise_ne _ (hdist i (Finset.mem_range.mp hi))]
      simp
    rw [specScore, Finset.sum_congr rfl hterm]
    simp
  · rw [sum_of_pairs_dest, hmain]

/-- Witness for claim C3 at the two-taxon one-column alignment of spec
scenario 4: residues A and G never match, so the score is 0 and the file is
routed to Failed_MSA. -/
theorem sum_of_pairs_spec_witness :
    sum_of_pairs_score [['A'], ['G']] = some (specScore [['A'], ['G']] (List.length ['A']))
    ∧ ((∀ s ∈ [['A'], ['G']], s = ['A']) → sum_of_pairs_score [['A'], ['G']] = some 1)
    ∧ ((∀ i < (List.length ['A']),
          List.Pairwise (fun a b => a ≠ b) (column [['A'], ['G']] i)) →
        sum_of_pairs_score [['A'], ['G']] = some 0)
    ∧ sum_of_pairs_dest [['A'], ['G']]
        = some (if (45 : ℚ) / 100 ≤ specScore [['A'], ['G']] (List.length ['A'])
                then "Passed_MSA" else "Failed_MSA") :=
  sum_of_pairs_spec ['A'] [['G']] (by decide) (by decide) (by decide)

/-- Claim C4: the code divides by zero on a single-taxon alignment. For the
one-record alignment of the sequence AC the pair denominator
len(pair_list)*(len(pair_list)-1)/2 is 0.0 at the first column and Python
raises ZeroDivisionError, modelled by none: no defined constant score is
produced and no routing happens. -/
theorem sum_of_pairs_single_taxon :
    sum_of_pairs_score [['A', 'C']] = none ∧ sum_of_pairs_dest [['A', 'C']] = none := by
  refine ⟨by decide, by decide⟩

/-! Lemmas about the partition synthesizer, settling claims C6 and C9. -/

theorem scanModel_foldl_ok (lines : List String) (h : ∀ l ∈ lines, hasBIC l = false) :
    ∀ m : Option String,
      lines.foldl
        (fun acc line =>
          match acc with
          | Except.error e => Except.error e
          | Except.ok m2 =>
            if hasBIC line then
              match bicModel line with
              | none => Except.error line
              | some v => Except.ok (some v)
            else Except.ok m2)
        (Except.ok m) = Except.ok m := by
  induction lines with
  | nil => intro m; rfl
  | cons l rest ih =>
    intro m
    rw [List.foldl_cons]
    have hl : hasBIC l = false := h l (List.mem_cons_self l rest)
    simp only [hl]
    exact ih (fun x hx => h x (List.mem_cons_of_mem l hx)) m

theorem scanModel_no_marker (lines : List String)
    (h : ∀ l ∈ lines, hasBIC l = false) : scanModel lines = Except.ok none :=
  scanModel_foldl_ok lines h none

theorem partitionModels_ok_snd (reports : String → List String) :
    ∀ dirs : List String,
      (∀ d2 ∈ dirs, ∃ m?, scanModel (reports d2) = Except.ok m?) →
      ∃ ps, partitionModels reports dirs = Except.ok ps
        ∧ ∀ x ∈ ps.map Prod.snd, ∃ m, scanModel (reports x) = Except.ok (some m) := by
  intro dirs
  induction dirs with
  | nil =>
    intro _
    exact ⟨[], rfl, by simp⟩
  | cons dd rest ih =>
    intro hok
    obtain ⟨m?, hm⟩ := hok dd (List.mem_cons_self dd rest)
    obtain ⟨tail, htail, hsnd⟩ := ih (fun x hx => hok x (List.mem_cons_of_mem dd hx))
    cases m? with
    | none =>
      refine ⟨tail, ?_, hsnd⟩
      simp only [partitionModels]
      rw [hm, htail]
    | some m =>
      refine ⟨(m, dd) :: tail, ?_, ?_⟩
      · simp only [partitionModels]
        rw [hm, htail]
      · intro x hx
        rcases List.mem_cons.mp hx with hx1 | hx2
        · rw [hx1]
          exact ⟨m, hm⟩
        · exact hsnd x hx2

theorem partitionModels_all_some (reports : String → List String) :
    ∀ dirs : List String,
      (∀ d ∈ dirs, ∃ m, scanModel (reports d) = Except.ok (some m)) →
      ∃ ps, partitionModels reports dirs = Except.ok ps ∧ ps.map Prod.snd = dirs := by
  intro dirs
  induction dirs with
  | nil =>
    intro _
    exact ⟨[], rfl, rfl⟩
  | cons dd rest ih =>
    intro hall
    obtain ⟨m, hm⟩ := hall dd (List.mem_cons_self dd rest)
    obtain ⟨tail, htail, hmap⟩ := ih (fun x hx => hall x (List.mem_cons_of_mem dd hx))
    refine ⟨(m, dd) :: tail, ?_, ?_⟩
    · simp only [partitionModels]
      rw [hm, htail]
    · simp [hmap]

/-- Claim C9 (amended): provided every model directory's report contains a
well-formed marker line, the partition file lists the same ortholog
identifiers, in the same order, in the charset block and in the
charpartition clause. When a report lacks the marker line its identifier is
silently dropped from the charpartition clause only, breaking the equality
(see the counterexample). -/
theorem create_partition_order (dirs : List String) (reports : String → List String)
    (hall : ∀ d ∈ dirs, ∃ m, scanModel (reports d) = Except.ok (some m)) :
    ∃ ps, create_partition dirs reports = Except.ok (dirs, ps)
      ∧ ps.map Prod.snd = dirs := by
  obtain ⟨ps, hps, hmap⟩ := partitionModels_all_some reports dirs hall
  refine ⟨ps, ?_, hmap⟩
  unfold create_partition
  rw [hps]

/-- Witness for claim C9 at a one-directory run with a well-formed marker. -/
theorem create_partition_order_witness :
    ∃ ps, create_partition ["d1"] (fun _ => ["selected per BIC: M+G"])
        = Except.ok (["d1"], ps)
      ∧ ps.map Prod.snd = ["d1"] :=
  create_partition_order ["d1"] (fun _ => ["selected per BIC: M+G"])
    (by
      intro d hd
      refine ⟨"M+G", ?_⟩
      show scanModel ["selected per BIC: M+G"] = Except.ok (some "M+G")
      decide)

/-- Counterexample to claim C9 as stated: with one report carrying the
marker and one lacking it, the charset block lists d1, d2 while the
charpartition clause lists only d1. -/
theorem create_partition_order_break :
    create_partition ["d1", "d2"] (fun d => if d = "d1" then ["use BIC: M1"] else ["x"])
      = Except.ok (["d1", "d2"], [("M1", "d1")])
    ∧ ([("M1", "d1")] : List (String × String)).map Prod.snd ≠ ["d1", "d2"] := by
  refine ⟨by decide, by decide⟩

/-- Claim C6 (amended): when an ortholog directory's report contains no line
with the marker token BIC:, create_partition does not fail; it completes
normally and silently omits that ortholog's model assignment from the
charpartition clause, while its charset line is still emitted. -/
theorem create_partition_missing_marker (dirs : List String)
    (reports : String → List String) (d : String)
    (hd : d ∈ dirs)
    (hnob : ∀ line ∈ reports d, hasBIC line = false)
    (hok : ∀ d2 ∈ dirs, ∃ m?, scanModel (reports d2) = Except.ok m?) :
    ∃ ps, create_partition dirs reports = Except.ok (dirs, ps)
      ∧ d ∉ ps.map Prod.snd ∧ d ∈ dirs := by
  obtain ⟨ps, hps, hsnd⟩ := partitionModels_ok_snd reports dirs hok
  refine ⟨ps, ?_, ?_, hd⟩
  · unfold create_partition
    rw [hps]
  · intro hdin
    obtain ⟨m, hm⟩ := hsnd d hdin
    rw [scanModel_no_marker (reports d) hnob] at hm
    exact absurd hm (by simp)

/-- Witness for claim C6 at a one-directory run whose report has no marker
line: the stage completes and the charpartition clause is empty. -/
theorem create_partition_missing_marker_witness :
    ∃ ps, create_partition ["e"] (fun _ => ["hello"]) = Except.ok (["e"], ps)
      ∧ "e" ∉ ps.map Prod.snd ∧ "e" ∈ ["e"] :=
  create_partition_missing_marker ["e"] (fun _ => ["hello"]) "e"
    (by decide) (by decide)
    (by
      intro d2 hd2
      refine ⟨none, ?_⟩
      show scanModel ["hello"] = Except.ok none
      decide)

/-- Counterexample to claim C6 as stated: a report without the marker line
does not make the stage fail; create_partition returns normally, the
directory still appears in the charset list, and the charpartition pair
list is empty. -/
theorem create_partition_silent_skip :
    create_partition ["d"] (fun _ => ["no marker here"]) = Except.ok (["d"], [])
    ∧ ("d" : String) ∉ (([] : List (String × String)).map Prod.snd) := by
  refine ⟨by decide, by simp⟩

/-- Claim C7: with the summary reports parsed (9th line, between the first
colon and the following percent sign), a species stays in the inventory if
and only if its parsed completeness is not strictly below the supplied
minimum, and with the default minimum 0 no species is removed when all
completeness values lie in [0, 100]. -/
theorem completeness_gate_spec (buscos reports : List (String × List String))
    (complete : ℚ) (qc : List (String × ℚ))
    (hqc : BUSCO_qc reports = some qc) :
    get_BUSCOs_gate buscos reports complete = some (removeLow buscos qc complete)
    ∧ (∀ sp ∈ buscos, ∀ v : ℚ, qc.lookup sp.1 = some v →
        (sp ∈ removeLow buscos qc complete ↔ ¬ v < complete))
    ∧ (complete = 0 → (∀ p ∈ qc, 0 ≤ p.2 ∧ p.2 ≤ 100) →
        removeLow buscos qc complete = buscos) := by
  refine ⟨?_, ?_, ?_⟩
  · rw [get_BUSCOs_gate, hqc]
    rfl
  · intro sp hsp v hv
    constructor
    · intro hmem
      have hpred := (List.mem_filter.mp hmem).2
      rw [hv] at hpred
      exact of_decide_eq_true hpred
    · intro hge
      apply List.mem_filter.mpr
      refine ⟨hsp, ?_⟩
      rw [hv]
      exact decide_eq_true hge
  · intro h0 hbound
    rw [removeLow, List.filter_eq_self]
    intro sp hsp
    cases hlk : qc.lookup sp.1 with
    | none => rfl
    | some v =>
      have hp := lookup_mem qc sp.1 v hlk
      have hv0 : 0 ≤ v := (hbound (sp.1, v) hp).1
      show decide (¬ v < complete) = true
      apply decide_eq_true
      rw [h0]
      exact not_lt.mpr hv0

/-- Witness for claim C7 at two species with parsed completeness 96.5 and
85.0 against the threshold 90: the first stays, the second is removed. -/
theorem completeness_gate_spec_witness :
    get_BUSCOs_gate [("A", ["x"]), ("C", ["y"])]
        [("A", ["", "", "", "", "", "", "", "", "\tC:96.5%[S:96.2%],F:1"]),
         ("C", ["", "", "", "", "", "", "", "", "\tC:85.0%[S:84.1%],F:2"])] 90
      = some (removeLow [("A", ["x"]), ("C", ["y"])]
          [("A", mkRat 965 10), ("C", mkRat 850 10)] 90)
    ∧ (∀ sp ∈ [("A", ["x"]), ("C", ["y"])], ∀ v : ℚ,
        ([("A", mkRat 965 10), ("C", mkRat 850 10)] : List (String × ℚ)).lookup sp.1
          = some v →
        (sp ∈ removeLow [("A", ["x"]), ("C", ["y"])]
            [("A", mkRat 965 10), ("C", mkRat 850 10)] 90 ↔ ¬ v < 90))
    ∧ ((90 : ℚ) = 0 →
        (∀ p ∈ ([("A", mkRat 965 10), ("C", mkRat 850 10)] : List (String × ℚ)),
          0 ≤ p.2 ∧ p.2 ≤ 100) →
        removeLow [("A", ["x"]), ("C", ["y"])]
          [("A", mkRat 965 10), ("C", mkRat 850 10)] 90 = [("A", ["x"]), ("C", ["y"])]) :=
  completeness_gate_spec [("A", ["x"]), ("C", ["y"])]
    [("A", ["", "", "", "", "", "", "", "", "\tC:96.5%[S:96.2%],F:1"]),
     ("C", ["", "", "", "", "", "", "", "", "\tC:85.0%[S:84.1%],F:2"])] 90
    [("A", mkRat 965 10), ("C", mkRat 850 10)] (by decide)

end ArboPhyl
